import Mathlib

/-!
Shallow embedding of the task-scheduling mock (`task/mock/task_control_service.go`)
of the influxdb repository, together with the interval-to-cron resolver exercised
by `task_test.go`.

Modelling conventions:
* `influxdb.ID` is a `Nat`; the zero ID is the invalid ID (as in `ID.Valid()`).
* Times are Unix seconds (`Int`); the mock only ever compares and stores whole
  seconds for `ScheduledFor` (`time.Unix`, cron ticks).  `Task.Offset` is kept as
  the value the Go code actually adds: `time.ParseDuration(...).Nanoseconds()`
  with `0` for an empty or unparseable offset string (that folding is performed
  by the source itself).
* The parsed cron schedule (`cron.Parse(task.EffectiveCron())`, an external
  library) is embedded as the function `Task.next : Int → Int`, standing for
  `sch.Next` on Unix seconds.  Properties of real cron schedules (such as
  `t < next t`) appear as explicit hypotheses where needed.
* Go maps become association lists; map iteration in the source is only used to
  take maxima, which is order-independent.
* `task.LatestCompleted` is an RFC3339 string in Go with three behaviourally
  distinct cases: empty, parseable (carrying a Unix time), and non-empty but
  unparseable.  It is embedded as the inductive `LC`.
* A Go `panic` is made explicit as a `panicked` result constructor; the state
  paired with it is the state at the moment of the panic.
* The snowflake run-ID generator is embedded as the counter `nextID` carried in
  the service state; it hands out fresh, increasing IDs just like the generator.
-/

namespace TaskMock

/-- `task.LatestCompleted`: empty string, valid RFC3339 string denoting Unix
time `t`, or a non-empty unparseable string. -/
inductive LC where
  | empty : LC
  | valid : Int → LC
  | invalid : LC
deriving DecidableEq, Repr

/-- One log line appended by `AddRunLog` (`influxdb.Log`). -/
structure LogEntry where
  runID : Nat
  time : Int
  message : String
deriving DecidableEq, Repr

/-- `influxdb.Run`, restricted to the fields the mock reads or writes.
`startedAt`/`finishedAt` are `none` while the Go zero `time.Time` is in place. -/
structure Run where
  id : Nat
  taskID : Nat
  scheduledFor : Int
  startedAt : Option Int
  finishedAt : Option Int
  status : String
  log : List LogEntry
deriving DecidableEq, Repr

/-- `influxdb.Task`, restricted to the fields the mock reads.  `next` is the
parsed effective schedule (see module docstring), `offsetNs` the parsed offset
in nanoseconds (0 for empty/unparseable). -/
structure Task where
  id : Nat
  latestCompleted : LC
  offsetNs : Int
  next : Int → Int

/-- `backend.QueuedRun`. -/
structure QueuedRun where
  taskID : Nat
  runID : Nat
  now : Int
deriving DecidableEq, Repr

/-- `backend.RunCreation`. -/
structure RunCreation where
  created : QueuedRun
  nextDue : Int
  hasQueue : Bool
deriving DecidableEq, Repr

/-- `backend.RunStatus` (the five values the mock's switch handles). -/
inductive RunStatus where
  | scheduled | started | success | fail | canceled
deriving DecidableEq, Repr

/-- `backend.RunStatus.String()`. -/
def RunStatus.str : RunStatus → String
  | .scheduled => "scheduled"
  | .started => "started"
  | .success => "success"
  | .fail => "failed"
  | .canceled => "canceled"

/-- Go map lookup `m[k]` on an association list. -/
def mapFind {κ α : Type} [DecidableEq κ] (m : List (κ × α)) (k : κ) : Option α :=
  match m with
  | [] => none
  | (k', v) :: rest => if k' = k then some v else mapFind rest k

/-- Go map store `m[k] = v` on an association list. -/
def mapInsert {κ α : Type} [DecidableEq κ] (m : List (κ × α)) (k : κ) (v : α) :
    List (κ × α) :=
  match m with
  | [] => [(k, v)]
  | (k', v') :: rest => if k' = k then (k, v) :: rest else (k', v') :: mapInsert rest k v

/-- Go map `delete(m, k)` on an association list. -/
def mapErase {κ α : Type} [DecidableEq κ] (m : List (κ × α)) (k : κ) : List (κ × α) :=
  match m with
  | [] => []
  | (k', v') :: rest => if k' = k then mapErase rest k else (k', v') :: mapErase rest k

/-- Lookup `runs[rid]` in a per-task run map, embedded as a list keyed by `Run.id`. -/
def runsFind (rs : List Run) (rid : Nat) : Option Run :=
  match rs with
  | [] => none
  | r :: rest => if r.id = rid then some r else runsFind rest rid

/-- Store `runs[r.ID] = r` in a per-task run map. -/
def runsInsert (rs : List Run) (r : Run) : List Run :=
  match rs with
  | [] => [r]
  | r' :: rest => if r'.id = r.id then r :: rest else r' :: runsInsert rest r

/-- `delete(runs, rid)` in a per-task run map. -/
def runsErase (rs : List Run) (rid : Nat) : List Run :=
  match rs with
  | [] => []
  | r :: rest => if r.id = rid then runsErase rest rid else r :: runsErase rest rid

/-- The mock `TaskControlService` state. -/
structure TCS where
  runs : List (Nat × List Run)
  tasks : List (Nat × Task)
  manualRuns : List Run
  created : List ((Nat × Nat) × QueuedRun)
  totalRunsCreated : List (Nat × Nat)
  finishedRuns : List (Nat × Run)
  nextID : Nat

/-- `NewTaskControlService()`: the empty service (run-ID generator seeded at 1,
snowflake IDs are never 0). -/
def initTCS : TCS :=
  { runs := [], tasks := [], manualRuns := [], created := [], totalRunsCreated := [],
    finishedRuns := [], nextID := 1 }

/-- `SetTask`. -/
def SetTask (s : TCS) (task : Task) : TCS :=
  { s with tasks := mapInsert s.tasks task.id task }

/-- `SetManualRuns`. -/
def SetManualRuns (s : TCS) (runs : List Run) : TCS :=
  { s with manualRuns := runs }

/-- `ManualRuns(taskID)`: note the source returns the single service-wide
`manualRuns` slice no matter which `taskID` is passed (the `nil` check only
swaps a nil slice for an empty one, which the list embedding makes identity). -/
def ManualRuns (s : TCS) (_taskID : Nat) : List Run :=
  s.manualRuns

/-- The `latest := 0; if parse ok, latest = lt.Unix()` seed of
`createNextRun`/`nextDueRun`. -/
def latestBase : LC → Int
  | .valid t => t
  | _ => 0

/-- The `for _, r := range runs { if r.ScheduledFor.Unix() > latest ... }` fold. -/
def latestVal (lc : LC) (rs : List Run) : Int :=
  rs.foldl (fun acc r => if r.scheduledFor > acc then r.scheduledFor else acc) (latestBase lc)

/-- `nextDueRun` (private helper), given the already-looked-up task:
`sch.Next(time.Unix(latest,0)).Unix() + offset`. -/
def nextDueRunAux (s : TCS) (task : Task) : Int :=
  task.next (latestVal task.latestCompleted ((mapFind s.runs task.id).getD [])) + task.offsetNs

/-- `NextDueRun(taskID)`; `none` models the nil-dereference panic when the task
is unknown. -/
def NextDueRun (s : TCS) (tid : Nat) : Option Int :=
  match mapFind s.tasks tid with
  | none => none
  | some task => some (nextDueRunAux s task)

/-- Result of the private `createNextRun` (cron-parse failures cannot arise in
the embedding, where the parsed schedule is carried by the task itself). -/
inductive CreateOutcome where
  | notDueYet : Int → CreateOutcome
  | created : RunCreation → CreateOutcome
deriving DecidableEq, Repr

/-- The private `createNextRun(task, now)`. -/
def createNextRunAux (s : TCS) (task : Task) (now : Int) : CreateOutcome × TCS :=
  let inflight := (mapFind s.runs task.id).getD []
  let latest := latestVal task.latestCompleted inflight
  let nextScheduled := task.next latest
  let dueAt := nextScheduled + task.offsetNs
  if dueAt > now then (.notDueYet dueAt, s)
  else
    let newRun : Run :=
      { id := s.nextID, taskID := 0, scheduledFor := nextScheduled,
        startedAt := none, finishedAt := none, status := "", log := [] }
    let s' : TCS :=
      { s with runs := mapInsert s.runs task.id (runsInsert inflight newRun),
               nextID := s.nextID + 1 }
    (.created { created := { taskID := 0, runID := s.nextID, now := nextScheduled },
                nextDue := task.next nextScheduled + task.offsetNs,
                hasQueue := false }, s')

/-- Result of the public `CreateNextRun`. -/
inductive CNROutcome where
  | invalidTaskID : CNROutcome
  | panicked : CNROutcome
  | notDueYet : Int → CNROutcome
  | created : RunCreation → CNROutcome
deriving DecidableEq, Repr

/-- `totalRunsCreated[taskID]++`. -/
def bumpCount (m : List (Nat × Nat)) (k : Nat) : List (Nat × Nat) :=
  mapInsert m k ((mapFind m k).getD 0 + 1)

/-- The public `CreateNextRun(taskID, now)`. -/
def CreateNextRun (s : TCS) (tid : Nat) (now : Int) : CNROutcome × TCS :=
  if tid = 0 then (.invalidTaskID, s)
  else
    match mapFind s.tasks tid with
    | none => (.panicked, s)
    | some task =>
      match s.manualRuns with
      | run :: rest =>
        let inflight := (mapFind s.runs tid).getD []
        let s1 : TCS :=
          { s with manualRuns := rest,
                   runs := mapInsert s.runs task.id (runsInsert inflight run) }
        let qr : QueuedRun := { taskID := task.id, runID := run.id, now := run.scheduledFor }
        let rc : RunCreation :=
          { created := qr, nextDue := nextDueRunAux s1 task, hasQueue := !rest.isEmpty }
        let s2 : TCS :=
          { s1 with created := mapInsert s1.created (tid, run.id) qr,
                    totalRunsCreated := bumpCount s1.totalRunsCreated tid }
        (.created rc, s2)
      | [] =>
        match createNextRunAux s task now with
        | (.notDueYet d, s') => (.notDueYet d, s')
        | (.created rc, s') =>
          let qr : QueuedRun := { rc.created with taskID := tid }
          let s2 : TCS :=
            { s' with created := mapInsert s'.created (tid, qr.runID) qr,
                      totalRunsCreated := bumpCount s'.totalRunsCreated tid }
          (.created { rc with created := qr }, s2)

/-- Result of `FinishRun`: the returned run, the parse-error return for an
unparseable non-empty `LatestCompleted`, or the nil-dereference panic. -/
inductive FinishOutcome where
  | ok : Run → FinishOutcome
  | parseErr : FinishOutcome
  | panicked : FinishOutcome
deriving DecidableEq, Repr

/-- `delete(d.runs[tid], rid)`: only touches the inner map when the task has one. -/
def runsDelete (m : List (Nat × List Run)) (tid rid : Nat) : List (Nat × List Run) :=
  match mapFind m tid with
  | none => m
  | some rs => mapInsert m tid (runsErase rs rid)

/-- `FinishRun(taskID, runID)`. -/
def FinishRun (s : TCS) (tid rid : Nat) : FinishOutcome × TCS :=
  let taskRuns := (mapFind s.runs tid).getD []
  let s1 : TCS := { s with runs := runsDelete s.runs tid rid }
  match runsFind taskRuns rid, mapFind s.tasks tid with
  | none, _ => (.panicked, s1)
  | some _, none => (.panicked, s1)
  | some r, some task =>
    match task.latestCompleted with
    | .invalid => (.parseErr, s1)
    | .empty =>
      (.ok r, { s1 with finishedRuns := mapInsert s1.finishedRuns rid r,
                        created := mapErase s1.created (tid, rid) })
    | .valid t =>
      let s2 : TCS :=
        if r.scheduledFor > t then
          { s1 with tasks := mapInsert s1.tasks tid
                      { task with latestCompleted := .valid r.scheduledFor } }
        else s1
      (.ok r, { s2 with finishedRuns := mapInsert s2.finishedRuns rid r,
                        created := mapErase s2.created (tid, rid) })

/-- Result of `UpdateRunState` / `AddRunLog`. -/
inductive LogOutcome where
  | ok : LogOutcome
  | panicked : LogOutcome
deriving DecidableEq, Repr

/-- `UpdateRunState(taskID, runID, when, state)`. -/
def UpdateRunState (s : TCS) (tid rid : Nat) (when : Int) (st : RunStatus) :
    LogOutcome × TCS :=
  let taskRuns := (mapFind s.runs tid).getD []
  match runsFind taskRuns rid with
  | none => (.panicked, s)
  | some run =>
    let run1 : Run :=
      match st with
      | .started => { run with startedAt := some when }
      | .success => { run with finishedAt := some when }
      | .fail => { run with finishedAt := some when }
      | .canceled => { run with finishedAt := some when }
      | .scheduled => run
    let run2 : Run := { run1 with status := st.str }
    (.ok, { s with runs := mapInsert s.runs tid (runsInsert taskRuns run2) })

/-- `AddRunLog(taskID, runID, when, log)`. -/
def AddRunLog (s : TCS) (tid rid : Nat) (when : Int) (msg : String) :
    LogOutcome × TCS :=
  let taskRuns := (mapFind s.runs tid).getD []
  match runsFind taskRuns rid with
  | none => (.panicked, s)
  | some run =>
    let run1 : Run := { run with log := run.log ++ [{ runID := rid, time := when, message := msg }] }
    (.ok, { s with runs := mapInsert s.runs tid (runsInsert taskRuns run1) })

/-- The watermark of the task stored under `tid` (if any). -/
def watermark (s : TCS) (tid : Nat) : Option LC :=
  (mapFind s.tasks tid).map Task.latestCompleted

/-! ### Association-list and fold lemmas -/

theorem mapFind_mapInsert {κ α : Type} [DecidableEq κ] (m : List (κ × α)) (k k' : κ) (v : α) :
    mapFind (mapInsert m k v) k' = if k = k' then some v else mapFind m k' := by
  induction m with
  | nil =>
    simp only [mapInsert, mapFind]
  | cons e rest ih =>
    obtain ⟨ek, ev⟩ := e
    by_cases hek : ek = k
    · subst hek
      simp only [mapInsert, if_pos rfl, mapFind]
      by_cases hkk : ek = k'
      · subst hkk; simp
      · simp [hkk]
    · simp only [mapInsert, if_neg hek, mapFind]
      by_cases hkk : ek = k'
      · subst hkk
        have : ¬ k = ek := fun h => hek h.symm
        simp [this, ih]
      · simp [hkk, ih]

theorem mapFind_mapInsert_self {κ α : Type} [DecidableEq κ] (m : List (κ × α)) (k : κ)
    (v : α) : mapFind (mapInsert m k v) k = some v := by
  rw [mapFind_mapInsert]
  simp

theorem mapInsert_self {κ α : Type} [DecidableEq κ] (m : List (κ × α)) (k : κ) (v : α)
    (h : mapFind m k = some v) : mapInsert m k v = m := by
  induction m with
  | nil => simp [mapFind] at h
  | cons e rest ih =>
    obtain ⟨ek, ev⟩ := e
    by_cases hek : ek = k
    · subst hek
      have h' : ev = v := by simpa [mapFind] using h
      subst h'
      simp [mapInsert]
    · simp only [mapFind, if_neg hek] at h
      simp [mapInsert, hek, ih h]

theorem runsFind_id (rs : List Run) (rid : Nat) (r : Run)
    (h : runsFind rs rid = some r) : r.id = rid := by
  induction rs with
  | nil => simp [runsFind] at h
  | cons r' rest ih =>
    by_cases hid : r'.id = rid
    · simp only [runsFind, if_pos hid, Option.some.injEq] at h
      subst h; exact hid
    · simp only [runsFind, if_neg hid] at h
      exact ih h

theorem runsFind_insert_self (rs : List Run) (r : Run) :
    runsFind (runsInsert rs r) r.id = some r := by
  induction rs with
  | nil => simp [runsInsert, runsFind]
  | cons r' rest ih =>
    by_cases hid : r'.id = r.id
    · simp [runsInsert, hid, runsFind]
    · simp [runsInsert, hid, runsFind, ih]

theorem runsInsert_of_fresh (rs : List Run) (r : Run)
    (h : runsFind rs r.id = none) : runsInsert rs r = rs ++ [r] := by
  induction rs with
  | nil => simp [runsInsert]
  | cons r' rest ih =>
    by_cases hid : r'.id = r.id
    · simp [runsFind, hid] at h
    · simp only [runsFind, if_neg hid] at h
      simp [runsInsert, hid, ih h]

theorem runsErase_of_absent (rs : List Run) (rid : Nat)
    (h : runsFind rs rid = none) : runsErase rs rid = rs := by
  induction rs with
  | nil => rfl
  | cons r' rest ih =>
    by_cases hid : r'.id = rid
    · simp [runsFind, hid] at h
    · simp only [runsFind, if_neg hid] at h
      simp [runsErase, hid, ih h]

theorem runsFind_erase (rs : List Run) (rid : Nat) :
    runsFind (runsErase rs rid) rid = none := by
  induction rs with
  | nil => rfl
  | cons r' rest ih =>
    by_cases hid : r'.id = rid
    · simp [runsErase, hid, ih]
    · simp [runsErase, hid, runsFind, ih]

theorem runsDelete_absent (m : List (Nat × List Run)) (tid rid : Nat)
    (h : runsFind ((mapFind m tid).getD []) rid = none) :
    runsDelete m tid rid = m := by
  cases hm : mapFind m tid with
  | none => simp [runsDelete, hm]
  | some rs =>
    rw [hm] at h
    simp only [Option.getD_some] at h
    simp only [runsDelete, hm]
    rw [runsErase_of_absent rs rid h]
    exact mapInsert_self m tid rs hm

theorem latestFold_base_le (rs : List Run) (base : Int) :
    base ≤ rs.foldl (fun acc r => if r.scheduledFor > acc then r.scheduledFor else acc) base := by
  induction rs generalizing base with
  | nil => exact le_refl base
  | cons r rest ih =>
    simp only [List.foldl_cons]
    refine le_trans ?_ (ih (if r.scheduledFor > base then r.scheduledFor else base))
    by_cases h : r.scheduledFor > base
    · simp [h]; omega
    · simp [h]

theorem latestFold_le_of_mem (rs : List Run) (base : Int) (r : Run) (h : r ∈ rs) :
    r.scheduledFor ≤
      rs.foldl (fun acc x => if x.scheduledFor > acc then x.scheduledFor else acc) base := by
  induction rs generalizing base with
  | nil => cases h
  | cons x rest ih =>
    simp only [List.foldl_cons]
    rcases List.mem_cons.mp h with hx | hx
    · subst hx
      refine le_trans ?_ (latestFold_base_le rest _)
      by_cases hb : r.scheduledFor > base
      · simp [hb]
      · simp [hb]; omega
    · exact ih _ hx

theorem latestVal_le_of_mem (lc : LC) (rs : List Run) (r : Run) (h : r ∈ rs) :
    r.scheduledFor ≤ latestVal lc rs :=
  latestFold_le_of_mem rs (latestBase lc) r h

/-! ### Reduction lemmas for the schedule gate -/

theorem gate_notDueYet (s : TCS) (tid : Nat) (now : Int) (task : Task)
    (htid : tid ≠ 0) (htask : mapFind s.tasks tid = some task) (hq : s.manualRuns = [])
    (hgate :
      task.next (latestVal task.latestCompleted ((mapFind s.runs task.id).getD [])) +
        task.offsetNs > now) :
    CreateNextRun s tid now =
      (CNROutcome.notDueYet
        (task.next (latestVal task.latestCompleted ((mapFind s.runs task.id).getD [])) +
          task.offsetNs), s) := by
  simp [CreateNextRun, createNextRunAux, htid, htask, hq, hgate]

theorem gate_created_fst (s : TCS) (tid : Nat) (now : Int) (task : Task)
    (htid : tid ≠ 0) (htask : mapFind s.tasks tid = some task) (hq : s.manualRuns = [])
    (hgate :
      ¬ task.next (latestVal task.latestCompleted ((mapFind s.runs task.id).getD [])) +
          task.offsetNs > now) :
    (CreateNextRun s tid now).1 =
      CNROutcome.created
        { created :=
            { taskID := tid, runID := s.nextID,
              now := task.next (latestVal task.latestCompleted
                ((mapFind s.runs task.id).getD [])) },
          nextDue := task.next (task.next (latestVal task.latestCompleted
            ((mapFind s.runs task.id).getD []))) + task.offsetNs,
          hasQueue := false } := by
  simp [CreateNextRun, createNextRunAux, htid, htask, hq, hgate]

theorem gate_created_runs (s : TCS) (tid : Nat) (now : Int) (task : Task)
    (htid : tid ≠ 0) (htask : mapFind s.tasks tid = some task) (hq : s.manualRuns = [])
    (hgate :
      ¬ task.next (latestVal task.latestCompleted ((mapFind s.runs task.id).getD [])) +
          task.offsetNs > now) :
    (CreateNextRun s tid now).2.runs =
      mapInsert s.runs task.id (runsInsert ((mapFind s.runs task.id).getD [])
        { id := s.nextID, taskID := 0,
          scheduledFor := task.next (latestVal task.latestCompleted
            ((mapFind s.runs task.id).getD [])),
          startedAt := none, finishedAt := none, status := "", log := [] }) := by
  simp [CreateNextRun, createNextRunAux, htid, htask, hq, hgate]

/-! ### Claim theorems -/

/-- C1: with an empty manual queue, `CreateNextRun(taskID, now)` returns
`RunNotDueYet(dueAt)` iff `dueAt > now` and creates a run (with
`ScheduledFor = nextScheduled`, inserted into the in-flight set) iff
`dueAt ≤ now`, where `dueAt = schedule.Next(latest) + Offset` and `latest` is
the maximum of the task's `LatestCompleted` and the `ScheduledFor` values of
its in-flight runs. -/
theorem createNextRun_due_time_gating (s : TCS) (tid : Nat) (now : Int) (task : Task)
    (dueAt : Int)
    (htid : tid ≠ 0) (htask : mapFind s.tasks tid = some task) (hq : s.manualRuns = [])
    (hdue : dueAt =
      task.next (latestVal task.latestCompleted ((mapFind s.runs task.id).getD [])) +
        task.offsetNs) :
    ((CreateNextRun s tid now).1 = CNROutcome.notDueYet dueAt ↔ dueAt > now) ∧
    ((∃ rc, (CreateNextRun s tid now).1 = CNROutcome.created rc) ↔ dueAt ≤ now) ∧
    (dueAt ≤ now →
      runsFind ((mapFind (CreateNextRun s tid now).2.runs task.id).getD []) s.nextID =
        some { id := s.nextID, taskID := 0,
               scheduledFor :=
                 task.next (latestVal task.latestCompleted ((mapFind s.runs task.id).getD [])),
               startedAt := none, finishedAt := none, status := "", log := [] }) := by
  subst hdue
  by_cases hgate :
      task.next (latestVal task.latestCompleted ((mapFind s.runs task.id).getD [])) +
        task.offsetNs > now
  · rw [gate_notDueYet s tid now task htid htask hq hgate]
    refine ⟨iff_of_true rfl hgate, ?_, ?_⟩
    · refine iff_of_false ?_ (by omega)
      rintro ⟨rc, hrc⟩
      exact CNROutcome.noConfusion hrc
    · intro hle
      exact absurd hle (by omega)
  · have hfst := gate_created_fst s tid now task htid htask hq hgate
    have hruns := gate_created_runs s tid now task htid htask hq hgate
    refine ⟨?_, ?_, ?_⟩
    · rw [hfst]
      refine iff_of_false ?_ (by omega)
      intro hrc
      exact CNROutcome.noConfusion hrc
    · exact iff_of_true ⟨_, hfst⟩ (by omega)
    · intro _
      rw [hruns, mapFind_mapInsert]
      simp only [if_pos rfl, Option.getD_some]
      exact runsFind_insert_self _ _

/-- A concrete task used by witnesses: every-10-seconds schedule, no offset,
empty watermark. -/
def taskW : Task :=
  { id := 1, latestCompleted := .empty, offsetNs := 0, next := fun t => t + 10 }

/-- A concrete service holding `taskW` and nothing else. -/
def svcW : TCS :=
  { runs := [], tasks := [(1, taskW)], manualRuns := [], created := [],
    totalRunsCreated := [], finishedRuns := [], nextID := 7 }

/-- Witness for C1: for `taskW` (schedule tick 10, watermark empty) at
`now = 10`, the due time is 10 and a run is created. -/
theorem createNextRun_due_time_gating_witness :
    ((CreateNextRun svcW 1 10).1 = CNROutcome.notDueYet 10 ↔ (10 : Int) > 10) ∧
    ((∃ rc, (CreateNextRun svcW 1 10).1 = CNROutcome.created rc) ↔ (10 : Int) ≤ 10) ∧
    ((10 : Int) ≤ 10 →
      runsFind ((mapFind (CreateNextRun svcW 1 10).2.runs taskW.id).getD []) svcW.nextID =
        some { id := svcW.nextID, taskID := 0,
               scheduledFor :=
                 taskW.next (latestVal taskW.latestCompleted ((mapFind svcW.runs taskW.id).getD [])),
               startedAt := none, finishedAt := none, status := "", log := [] }) :=
  createNextRun_due_time_gating svcW 1 10 taskW 10 (by decide) rfl rfl (by decide)

/-- C2: when the gate creates a run (manual queue empty), its `ScheduledFor`
is strictly above the `ScheduledFor` of every run already in flight for the
task, so pairwise-distinct `ScheduledFor` values stay pairwise distinct:
across any sequence of `CreateNextRun` calls, no two non-manual runs share a
`ScheduledFor` while in flight.  `hstrict` is the defining property of a cron
schedule's `Next`; `hfresh` states that the generated run ID is fresh, as the
snowflake generator guarantees. -/
theorem createNextRun_no_duplicate_ticks (s : TCS) (tid : Nat) (now : Int) (task : Task)
    (rc : RunCreation)
    (htid : tid ≠ 0) (htask : mapFind s.tasks tid = some task) (hq : s.manualRuns = [])
    (hstrict : ∀ t, t < task.next t)
    (hfresh : runsFind ((mapFind s.runs task.id).getD []) s.nextID = none)
    (hcr : (CreateNextRun s tid now).1 = CNROutcome.created rc) :
    (∀ r ∈ (mapFind s.runs task.id).getD [], r.scheduledFor < rc.created.now) ∧
    ((((mapFind s.runs task.id).getD []).map Run.scheduledFor).Pairwise (· ≠ ·) →
      (((mapFind (CreateNextRun s tid now).2.runs task.id).getD []).map
        Run.scheduledFor).Pairwise (· ≠ ·)) := by
  by_cases hgate :
      task.next (latestVal task.latestCompleted ((mapFind s.runs task.id).getD [])) +
        task.offsetNs > now
  · rw [gate_notDueYet s tid now task htid htask hq hgate] at hcr
    exact CNROutcome.noConfusion hcr
  · rw [gate_created_fst s tid now task htid htask hq hgate] at hcr
    injection hcr with hrc
    subst hrc
    have hmem : ∀ r ∈ (mapFind s.runs task.id).getD [],
        r.scheduledFor <
          task.next (latestVal task.latestCompleted ((mapFind s.runs task.id).getD [])) := by
      intro r hr
      exact lt_of_le_of_lt (latestVal_le_of_mem task.latestCompleted _ r hr)
        (hstrict (latestVal task.latestCompleted ((mapFind s.runs task.id).getD [])))
    refine ⟨hmem, ?_⟩
    intro hpw
    rw [gate_created_runs s tid now task htid htask hq hgate,
      runsInsert_of_fresh _ _ hfresh, mapFind_mapInsert_self]
    simp only [Option.getD_some]
    rw [List.map_append, List.pairwise_append]
    refine ⟨hpw, by simp, ?_⟩
    intro a ha b hb
    simp only [List.map_cons, List.map_nil, List.mem_singleton] at hb
    subst hb
    simp only [List.mem_map] at ha
    obtain ⟨r, hr, hra⟩ := ha
    subst hra
    exact ne_of_lt (hmem r hr)

/-- A concrete in-flight run for `taskW`, representing the tick at time 10. -/
def runW : Run :=
  { id := 3, taskID := 1, scheduledFor := 10, startedAt := none, finishedAt := none,
    status := "", log := [] }

/-- A concrete service holding `taskW` with `runW` in flight. -/
def svcW2 : TCS :=
  { runs := [(1, [runW])], tasks := [(1, taskW)], manualRuns := [], created := [],
    totalRunsCreated := [], finishedRuns := [], nextID := 7 }

/-- The run creation produced by `CreateNextRun svcW2 1 20`. -/
def rcW : RunCreation :=
  { created := { taskID := 1, runID := 7, now := 20 }, nextDue := 30, hasQueue := false }

/-- Witness for C2: with `runW` (tick 10) in flight, the newly created run is
the strictly later tick 20, and distinctness of in-flight ticks is preserved. -/
theorem createNextRun_no_duplicate_ticks_witness :
    (∀ r ∈ (mapFind svcW2.runs taskW.id).getD [], r.scheduledFor < rcW.created.now) ∧
    ((((mapFind svcW2.runs taskW.id).getD []).map Run.scheduledFor).Pairwise (· ≠ ·) →
      (((mapFind (CreateNextRun svcW2 1 20).2.runs taskW.id).getD []).map
        Run.scheduledFor).Pairwise (· ≠ ·)) :=
  createNextRun_no_duplicate_ticks svcW2 1 20 taskW rcW (by decide) rfl rfl
    (fun t => by show t < t + 10; omega) (by decide) (by decide)

/-- C10: with an empty manual queue, `NextDueRun(taskID)` returns exactly the
`dueAt` the gate in `CreateNextRun` compares against `now`: the gate reports
`RunNotDueYet` precisely when that value exceeds `now`, and any reported
`dueAt` equals it. -/
theorem nextDueRun_matches_gate (s : TCS) (tid : Nat) (now : Int) (task : Task)
    (htid : tid ≠ 0) (htask : mapFind s.tasks tid = some task) (hq : s.manualRuns = []) :
    ∃ d, NextDueRun s tid = some d ∧
      ((CreateNextRun s tid now).1 = CNROutcome.notDueYet d ↔ d > now) ∧
      (∀ d', (CreateNextRun s tid now).1 = CNROutcome.notDueYet d' → d' = d) := by
  refine ⟨task.next (latestVal task.latestCompleted ((mapFind s.runs task.id).getD [])) +
    task.offsetNs, ?_, ?_, ?_⟩
  · simp [NextDueRun, htask, nextDueRunAux]
  · by_cases hgate :
        task.next (latestVal task.latestCompleted ((mapFind s.runs task.id).getD [])) +
          task.offsetNs > now
    · rw [gate_notDueYet s tid now task htid htask hq hgate]
      exact iff_of_true rfl hgate
    · rw [gate_created_fst s tid now task htid htask hq hgate]
      exact iff_of_false (fun h => CNROutcome.noConfusion h) hgate
  · intro d' hd'
    by_cases hgate :
        task.next (latestVal task.latestCompleted ((mapFind s.runs task.id).getD [])) +
          task.offsetNs > now
    · rw [gate_notDueYet s tid now task htid htask hq hgate] at hd'
      injection hd' with h
      exact h.symm
    · rw [gate_created_fst s tid now task htid htask hq hgate] at hd'
      exact CNROutcome.noConfusion hd'

/-- Witness for C10 at the concrete service `svcW`. -/
theorem nextDueRun_matches_gate_witness :
    ∃ d, NextDueRun svcW 1 = some d ∧
      ((CreateNextRun svcW 1 10).1 = CNROutcome.notDueYet d ↔ d > 10) ∧
      (∀ d', (CreateNextRun svcW 1 10).1 = CNROutcome.notDueYet d' → d' = d) :=
  nextDueRun_matches_gate svcW 1 10 taskW (by decide) rfl rfl

/-- `lcLe a b`: the watermark moved from `a` to `b` without going backwards. -/
def lcLe : LC → LC → Prop
  | .valid t, .valid u => t ≤ u
  | a, b => a = b

/-- `lcLe` lifted to the optional watermark of a possibly absent task. -/
def lcLeO : Option LC → Option LC → Prop
  | some a, some b => lcLe a b
  | a, b => a = b

theorem lcLe_refl (a : LC) : lcLe a a := by
  cases a <;> simp [lcLe]

theorem lcLeO_refl (a : Option LC) : lcLeO a a := by
  cases a with
  | none => rfl
  | some a => exact lcLe_refl a

/-- C3: a single `FinishRun` call never decreases any task's `LatestCompleted`
watermark; since this holds for every call and every state, it holds after each
call of an arbitrary sequence of `FinishRun` calls, in any order. -/
theorem finishRun_watermark_monotone (s : TCS) (tid rid tid' : Nat) :
    lcLeO (watermark s tid') (watermark (FinishRun s tid rid).2 tid') := by
  cases hr : runsFind ((mapFind s.runs tid).getD []) rid with
  | none =>
    simp only [FinishRun, hr, watermark]
    exact lcLeO_refl _
  | some r =>
    cases ht : mapFind s.tasks tid with
    | none =>
      simp only [FinishRun, hr, ht, watermark]
      exact lcLeO_refl _
    | some task =>
      cases hlc : task.latestCompleted with
      | invalid =>
        simp only [FinishRun, hr, ht, hlc, watermark]
        exact lcLeO_refl _
      | empty =>
        simp only [FinishRun, hr, ht, hlc, watermark]
        exact lcLeO_refl _
      | valid t =>
        by_cases hgt : r.scheduledFor > t
        · simp only [FinishRun, hr, ht, hlc, if_pos hgt, watermark]
          by_cases htid : tid = tid'
          · subst htid
            rw [mapFind_mapInsert_self, ht]
            show lcLeO (some task.latestCompleted) (some (LC.valid r.scheduledFor))
            rw [hlc]
            exact le_of_lt hgt
          · rw [mapFind_mapInsert, if_neg htid]
            exact lcLeO_refl _
        · simp only [FinishRun, hr, ht, hlc, if_neg hgt, watermark]
          exact lcLeO_refl _

theorem finishRun_runs (s : TCS) (tid rid : Nat) :
    (FinishRun s tid rid).2.runs = runsDelete s.runs tid rid := by
  cases hr : runsFind ((mapFind s.runs tid).getD []) rid with
  | none => simp [FinishRun, hr]
  | some r =>
    cases ht : mapFind s.tasks tid with
    | none => simp [FinishRun, hr, ht]
    | some task =>
      cases hlc : task.latestCompleted with
      | invalid => simp [FinishRun, hr, ht, hlc]
      | empty => simp [FinishRun, hr, ht, hlc]
      | valid t =>
        by_cases hgt : r.scheduledFor > t
        · simp [FinishRun, hr, ht, hlc, hgt]
        · simp [FinishRun, hr, ht, hlc, hgt]

/-- C4 (amended): for a tracked run, `FinishRun` removes it from the in-flight
set; when `LatestCompleted` holds a valid timestamp the watermark advances to
the run's `ScheduledFor` exactly when that is later; but when
`LatestCompleted` is empty it stays empty (the source skips the watermark
update for an empty watermark). -/
theorem finishRun_removes_and_advances (s : TCS) (tid rid : Nat) (r : Run) (task : Task)
    (hr : runsFind ((mapFind s.runs tid).getD []) rid = some r)
    (ht : mapFind s.tasks tid = some task) :
    runsFind ((mapFind (FinishRun s tid rid).2.runs tid).getD []) rid = none ∧
    (∀ t, task.latestCompleted = LC.valid t → r.scheduledFor > t →
      watermark (FinishRun s tid rid).2 tid = some (LC.valid r.scheduledFor)) ∧
    (∀ t, task.latestCompleted = LC.valid t → ¬ r.scheduledFor > t →
      watermark (FinishRun s tid rid).2 tid = some (LC.valid t)) ∧
    (task.latestCompleted = LC.empty →
      watermark (FinishRun s tid rid).2 tid = some LC.empty) := by
  cases hm : mapFind s.runs tid with
  | none =>
    rw [hm] at hr
    simp [runsFind] at hr
  | some rs =>
    refine ⟨?_, ?_, ?_, ?_⟩
    · rw [finishRun_runs]
      simp only [runsDelete, hm]
      rw [mapFind_mapInsert_self]
      simp only [Option.getD_some]
      exact runsFind_erase rs rid
    · intro t hlc hgt
      simp only [FinishRun, hr, ht, hlc, if_pos hgt, watermark]
      rw [mapFind_mapInsert_self]
      rfl
    · intro t hlc hgt
      simp only [FinishRun, hr, ht, hlc, if_neg hgt, watermark]
      simp [hlc]
    · intro hlc
      simp only [FinishRun, hr, ht, hlc, watermark]
      simp [hlc]

/-- The task used by the C4 counterexample: empty watermark. -/
def taskC4 : Task :=
  { id := 1, latestCompleted := .empty, offsetNs := 0, next := fun t => t + 10 }

/-- The first-ever run of `taskC4`, scheduled for time 100. -/
def runC4 : Run :=
  { id := 5, taskID := 1, scheduledFor := 100, startedAt := none, finishedAt := none,
    status := "", log := [] }

/-- Service with `taskC4` (empty watermark) and `runC4` in flight. -/
def svcC4 : TCS :=
  { runs := [(1, [runC4])], tasks := [(1, taskC4)], manualRuns := [], created := [],
    totalRunsCreated := [], finishedRuns := [], nextID := 7 }

/-- C4 counterexample: finishing the first-ever run of a task whose
`LatestCompleted` is empty leaves the watermark empty; it does not become the
run's `ScheduledFor` (100) as the claim states. -/
theorem finishRun_first_run_counterexample :
    (FinishRun svcC4 1 5).1 = FinishOutcome.ok runC4 ∧
    watermark (FinishRun svcC4 1 5).2 1 = some LC.empty ∧
    some LC.empty ≠ some (LC.valid runC4.scheduledFor) :=
  ⟨rfl, rfl, by decide⟩

/-- The task used by the C4 witness: valid watermark at time 50. -/
def taskC4v : Task :=
  { id := 1, latestCompleted := .valid 50, offsetNs := 0, next := fun t => t + 10 }

/-- Service with `taskC4v` and `runC4` (tick 100) in flight. -/
def svcC4v : TCS :=
  { runs := [(1, [runC4])], tasks := [(1, taskC4v)], manualRuns := [], created := [],
    totalRunsCreated := [], finishedRuns := [], nextID := 7 }

/-- Witness for the amended C4 at a concrete service. -/
theorem finishRun_removes_and_advances_witness :
    runsFind ((mapFind (FinishRun svcC4v 1 5).2.runs 1).getD []) 5 = none ∧
    (∀ t, taskC4v.latestCompleted = LC.valid t → runC4.scheduledFor > t →
      watermark (FinishRun svcC4v 1 5).2 1 = some (LC.valid runC4.scheduledFor)) ∧
    (∀ t, taskC4v.latestCompleted = LC.valid t → ¬ runC4.scheduledFor > t →
      watermark (FinishRun svcC4v 1 5).2 1 = some (LC.valid t)) ∧
    (taskC4v.latestCompleted = LC.empty →
      watermark (FinishRun svcC4v 1 5).2 1 = some LC.empty) :=
  finishRun_removes_and_advances svcC4v 1 5 runC4 taskC4v rfl rfl

/-- C5: when the manual queue is non-empty, `CreateNextRun` dequeues and
returns its head for any `now` (the due-time gate is never consulted),
registers the dequeued run as in-flight, and reports `HasQueue` exactly when
the queue is still non-empty after the dequeue. -/
theorem createNextRun_manual_precedence (s : TCS) (tid : Nat) (now : Int) (task : Task)
    (run : Run) (rest : List Run)
    (htid : tid ≠ 0) (htask : mapFind s.tasks tid = some task)
    (hq : s.manualRuns = run :: rest) :
    ∃ rc, (CreateNextRun s tid now).1 = CNROutcome.created rc ∧
      rc.created.runID = run.id ∧
      rc.created.now = run.scheduledFor ∧
      rc.created.taskID = task.id ∧
      rc.hasQueue = !rest.isEmpty ∧
      (CreateNextRun s tid now).2.manualRuns = rest ∧
      runsFind ((mapFind (CreateNextRun s tid now).2.runs task.id).getD []) run.id =
        some run := by
  refine ⟨{ created := { taskID := task.id, runID := run.id, now := run.scheduledFor },
            nextDue := nextDueRunAux
              { s with manualRuns := rest,
                       runs := mapInsert s.runs task.id
                         (runsInsert ((mapFind s.runs tid).getD []) run) } task,
            hasQueue := !rest.isEmpty }, ?_, rfl, rfl, rfl, rfl, ?_, ?_⟩
  · simp [CreateNextRun, htid, htask, hq]
  · simp [CreateNextRun, htid, htask, hq]
  · simp [CreateNextRun, htid, htask, hq, mapFind_mapInsert_self, runsFind_insert_self]

/-- A manual (operator-requested) run for `taskW`, scheduled for time 55. -/
def mrunW : Run :=
  { id := 9, taskID := 1, scheduledFor := 55, startedAt := none, finishedAt := none,
    status := "", log := [] }

/-- Service with `taskW` and the single queued manual run `mrunW`. -/
def svcW5 : TCS :=
  { runs := [], tasks := [(1, taskW)], manualRuns := [mrunW], created := [],
    totalRunsCreated := [], finishedRuns := [], nextID := 7 }

/-- Witness for C5 at `now = 0`, well before any tick of `taskW` is due. -/
theorem createNextRun_manual_precedence_witness :
    ∃ rc, (CreateNextRun svcW5 1 0).1 = CNROutcome.created rc ∧
      rc.created.runID = mrunW.id ∧
      rc.created.now = mrunW.scheduledFor ∧
      rc.created.taskID = taskW.id ∧
      rc.hasQueue = !(List.nil (α := Run)).isEmpty ∧
      (CreateNextRun svcW5 1 0).2.manualRuns = [] ∧
      runsFind ((mapFind (CreateNextRun svcW5 1 0).2.runs taskW.id).getD []) mrunW.id =
        some mrunW :=
  createNextRun_manual_precedence svcW5 1 0 taskW mrunW [] (by decide) rfl rfl

/-- C6 (amended): for a tracked run, `UpdateRunState` to `Started` sets
`StartedAt = when`; to any terminal status (`Success`, `Failed`, `Canceled`)
sets `FinishedAt = when`; and to `Scheduled` it sets no timestamp but still
overwrites `Status` with "scheduled" — the source accepts the transition back
into `Scheduled` after the run has left it. -/
theorem updateRunState_sets_fields (s : TCS) (tid rid : Nat) (when : Int) (r : Run)
    (hr : runsFind ((mapFind s.runs tid).getD []) rid = some r) :
    runsFind ((mapFind (UpdateRunState s tid rid when .started).2.runs tid).getD []) rid =
      some { r with startedAt := some when, status := "started" } ∧
    runsFind ((mapFind (UpdateRunState s tid rid when .success).2.runs tid).getD []) rid =
      some { r with finishedAt := some when, status := "success" } ∧
    runsFind ((mapFind (UpdateRunState s tid rid when .fail).2.runs tid).getD []) rid =
      some { r with finishedAt := some when, status := "failed" } ∧
    runsFind ((mapFind (UpdateRunState s tid rid when .canceled).2.runs tid).getD []) rid =
      some { r with finishedAt := some when, status := "canceled" } ∧
    runsFind ((mapFind (UpdateRunState s tid rid when .scheduled).2.runs tid).getD []) rid =
      some { r with status := "scheduled" } := by
  have hid := runsFind_id _ _ _ hr
  refine ⟨?_, ?_, ?_, ?_, ?_⟩ <;>
    (simp only [UpdateRunState, hr, RunStatus.str]
     rw [mapFind_mapInsert_self]
     simp only [Option.getD_some]
     rw [← hid]
     exact runsFind_insert_self _ _)

/-- A run of `taskW` that has left `Scheduled`: its status is "started". -/
def runC6 : Run :=
  { id := 5, taskID := 1, scheduledFor := 10, startedAt := some 50, finishedAt := none,
    status := "started", log := [] }

/-- Service with `taskW` and the started run `runC6` in flight. -/
def svcC6 : TCS :=
  { runs := [(1, [runC6])], tasks := [(1, taskW)], manualRuns := [], created := [],
    totalRunsCreated := [], finishedRuns := [], nextID := 7 }

/-- C6 counterexample: a run whose status is already "started" is moved back
to status "scheduled" by `UpdateRunState(..., Scheduled)` — the transition
back into `Scheduled` is accepted, contrary to the claim. -/
theorem updateRunState_reenters_scheduled_counterexample :
    runC6.status = "started" ∧
    (UpdateRunState svcC6 1 5 60 .scheduled).1 = LogOutcome.ok ∧
    (runsFind ((mapFind (UpdateRunState svcC6 1 5 60 .scheduled).2.runs 1).getD []) 5).map
      Run.status = some "scheduled" :=
  ⟨rfl, rfl, rfl⟩

/-- Witness for the amended C6 at the concrete service `svcC6`. -/
theorem updateRunState_sets_fields_witness :
    runsFind ((mapFind (UpdateRunState svcC6 1 5 60 .started).2.runs 1).getD []) 5 =
      some { runC6 with startedAt := some 60, status := "started" } ∧
    runsFind ((mapFind (UpdateRunState svcC6 1 5 60 .success).2.runs 1).getD []) 5 =
      some { runC6 with finishedAt := some 60, status := "success" } ∧
    runsFind ((mapFind (UpdateRunState svcC6 1 5 60 .fail).2.runs 1).getD []) 5 =
      some { runC6 with finishedAt := some 60, status := "failed" } ∧
    runsFind ((mapFind (UpdateRunState svcC6 1 5 60 .canceled).2.runs 1).getD []) 5 =
      some { runC6 with finishedAt := some 60, status := "canceled" } ∧
    runsFind ((mapFind (UpdateRunState svcC6 1 5 60 .scheduled).2.runs 1).getD []) 5 =
      some { runC6 with status := "scheduled" } :=
  updateRunState_sets_fields svcC6 1 5 60 runC6 rfl

/-- A second task, with ID 2, for the C8 counterexample. -/
def task2W : Task :=
  { id := 2, latestCompleted := .empty, offsetNs := 0, next := fun t => t + 10 }

/-- A manual run belonging (by its `TaskID` field) to task 1. -/
def mrunA : Run :=
  { id := 11, taskID := 1, scheduledFor := 42, startedAt := none, finishedAt := none,
    status := "", log := [] }

/-- Service holding tasks 1 and 2, no runs, empty manual queue. -/
def svcC8 : TCS :=
  { runs := [], tasks := [(1, taskW), (2, task2W)], manualRuns := [], created := [],
    totalRunsCreated := [], finishedRuns := [], nextID := 7 }

/-- C8 counterexample: enqueuing the manual run `mrunA` (whose `TaskID` is 1)
changes what `ManualRuns(2)` returns, and `CreateNextRun(2, ...)` dequeues
that run even though it belongs to task 1 — the queue is not per-task. -/
theorem manualRuns_not_per_task_counterexample :
    ManualRuns svcC8 2 = [] ∧
    ManualRuns (SetManualRuns svcC8 [mrunA]) 2 = [mrunA] ∧
    mrunA.taskID = 1 ∧
    (CreateNextRun (SetManualRuns svcC8 [mrunA]) 2 0).1 =
      CNROutcome.created
        { created := { taskID := 2, runID := 11, now := 42 }, nextDue := 52,
          hasQueue := false } :=
  ⟨rfl, rfl, rfl, rfl⟩

/-- C8 (amended): the mock's manual queue is one service-wide list, not
per-task: `SetManualRuns` replaces it wholesale and `ManualRuns(taskID)`
returns it unchanged for every `taskID`, so enqueuing runs for one task is
visible through every other task, and `CreateNextRun` serves its head
regardless of task. -/
theorem manualRuns_global_queue (s : TCS) (runs : List Run) (tid tidOther : Nat) :
    ManualRuns (SetManualRuns s runs) tid = runs ∧
    ManualRuns s tid = ManualRuns s tidOther :=
  ⟨rfl, rfl⟩

/-- C9 counterexample: with task 1 present and no tracked runs,
`CreateNextRun` on the unknown task 2 panics (the mock aborts) instead of
returning NotFound, and `AddRunLog` / `FinishRun` on the untracked run 5
panic as well. -/
theorem notFound_panics_counterexample :
    (CreateNextRun svcW 2 0).1 = CNROutcome.panicked ∧
    (AddRunLog svcW 1 5 0 "line").1 = LogOutcome.panicked ∧
    (FinishRun svcW 1 5).1 = FinishOutcome.panicked :=
  ⟨rfl, rfl, rfl⟩

/-- C9 (amended): a reference to an unknown task makes `CreateNextRun` panic,
and a reference to an untracked run makes `AddRunLog` and `FinishRun` panic,
rather than returning a NotFound error; the service state is unchanged at the
moment of each panic. -/
theorem notFound_panics (s su : TCS) (tid tidu ridu : Nat) (now when : Int) (msg : String)
    (htid : tid ≠ 0) (htask : mapFind s.tasks tid = none)
    (hrun : runsFind ((mapFind su.runs tidu).getD []) ridu = none) :
    CreateNextRun s tid now = (CNROutcome.panicked, s) ∧
    AddRunLog su tidu ridu when msg = (LogOutcome.panicked, su) ∧
    FinishRun su tidu ridu = (FinishOutcome.panicked, su) := by
  refine ⟨?_, ?_, ?_⟩
  · simp [CreateNextRun, htid, htask]
  · simp [AddRunLog, hrun]
  · simp only [FinishRun, hrun]
    rw [runsDelete_absent su.runs tidu ridu hrun]

/-- Witness for the amended C9 at the concrete service `svcW`. -/
theorem notFound_panics_witness :
    CreateNextRun svcW 2 0 = (CNROutcome.panicked, svcW) ∧
    AddRunLog svcW 1 5 0 "line" = (LogOutcome.panicked, svcW) ∧
    FinishRun svcW 1 5 = (FinishOutcome.panicked, svcW) :=
  notFound_panics svcW svcW 2 1 5 0 0 "line" (by decide) rfl rfl

/-- Accumulating decimal parser over the characters of a magnitude. -/
def parseDigitsAux : List Char → Nat → Option Nat
  | [], acc => some acc
  | c :: rest, acc =>
    if c.isDigit then parseDigitsAux rest (acc * 10 + (c.toNat - 48))
    else none

/-- Modelled from the spec: decimal integer parsing (optional leading minus)
for duration magnitudes. -/
def parseIntChars : List Char → Option Int
  | [] => none
  | '-' :: rest =>
    match rest with
    | [] => none
    | _ => (parseDigitsAux rest 0).map (fun n => -(n : Int))
  | cs => (parseDigitsAux cs 0).map (fun n => (n : Int))

/-- Modelled from the spec: the duration parser of the options subsystem
(absent from the provided sources), restricted to the shapes the test
exercises — a signed integer magnitude followed by one unit among s/m/h/d —
returning the duration in seconds. -/
def parseEveryDuration (str : String) : Option Int :=
  if str.length < 2 then none
  else
    let unit := str.back
    match parseIntChars (str.dropRight 1).data with
    | none => none
    | some n =>
      if unit = 's' then some n
      else if unit = 'm' then some (n * 60)
      else if unit = 'h' then some (n * 3600)
      else if unit = 'd' then some (n * 86400)
      else none

/-- Modelled from the spec: `Task.EffectiveCron` (its implementation is not
among the provided sources; only its test is).  A non-empty `Cron` is returned
verbatim; otherwise `Every` is resolved into a 7-field cron vector using one
every-N field chosen by magnitude band; a negative, zero, or unparseable
`Every` fails with `InvalidSchedule`, modelled as `none`. -/
def taskEffectiveCron (cron every : String) : Option String :=
  if cron ≠ "" then some cron
  else
    match parseEveryDuration every with
    | none => none
    | some secs =>
      if secs ≤ 0 then none
      else if secs < 60 then
        some ("*/" ++ toString secs ++ " */1 */1 * * * *")
      else if secs < 3600 then
        some ("0 */" ++ toString (secs / 60) ++ " */1 * * * *")
      else
        some ("0 0 */" ++ toString (secs / 3600) ++ " * * * *")

/-- C7: `EffectiveCron` resolution: for every task, a non-empty `Cron` is
returned verbatim whatever `Every` holds (cron wins over the interval); the
five interval test vectors map as the test expects; and the negative interval
"-7d" is rejected as an invalid schedule. -/
theorem effectiveCron_resolution (cron every : String) (hc : cron ≠ "") :
    taskEffectiveCron cron every = some cron ∧
    taskEffectiveCron "" "1h" = some "0 0 */1 * * * *" ∧
    taskEffectiveCron "" "1m" = some "0 */1 */1 * * * *" ∧
    taskEffectiveCron "" "1s" = some "*/1 */1 */1 * * * *" ∧
    taskEffectiveCron "" "3m" = some "0 */3 */1 * * * *" ∧
    taskEffectiveCron "" "2h" = some "0 0 */2 * * * *" ∧
    taskEffectiveCron "" "-7d" = none := by
  refine ⟨by simp [taskEffectiveCron, hc], ?_, ?_, ?_, ?_, ?_, rfl⟩ <;> decide

/-- Witness for C7 at the test's own precedence vector: `Cron` set to
"* * * * *" with `Every` set to "7h". -/
theorem effectiveCron_resolution_witness :
    taskEffectiveCron "* * * * *" "7h" = some "* * * * *" ∧
    taskEffectiveCron "" "1h" = some "0 0 */1 * * * *" ∧
    taskEffectiveCron "" "1m" = some "0 */1 */1 * * * *" ∧
    taskEffectiveCron "" "1s" = some "*/1 */1 */1 * * * *" ∧
    taskEffectiveCron "" "3m" = some "0 */3 */1 * * * *" ∧
    taskEffectiveCron "" "2h" = some "0 0 */2 * * * *" ∧
    taskEffectiveCron "" "-7d" = none :=
  effectiveCron_resolution "* * * * *" "7h" (by decide)

end TaskMock
